import Mathlib

/-!
Verification of the stock-screener repository: a shallow embedding of
`exchange_data.py` (cache, call budget, market-cap filter),
`stock_ratings.py` (three-stage document retrieval), and
`ratings_collector.py` (idempotent collection into an append-only store),
together with theorems settling the specification's claims.
-/

namespace StockScreener

/-! ### String helpers mirroring Python primitives

Python's `needle in haystack` (substring test), `str.startswith`,
`str.lower`, `str.split` and `'/'.join` are modelled on `String` via its
underlying character list. -/

/-- Python's `needle in haystack` substring test, on character lists. -/
def containsList (hay needle : List Char) : Bool :=
  match hay with
  | [] => needle.isEmpty
  | _ :: t => needle.isPrefixOf hay || containsList t needle

/-- Python's `sub in s` substring test on strings. -/
def strContains (s sub : String) : Bool :=
  containsList s.data sub.data

/-- Python's `s.startswith(p)`. -/
def strStartsWith (s p : String) : Bool :=
  p.data.isPrefixOf s.data

/-- Python's `s.lower()` (ASCII lowering suffices for the header values used). -/
def lowerStr (s : String) : String :=
  ⟨s.data.map Char.toLower⟩

/-- Python's `s.split(sep)` for a single-character separator, on
character lists (never returns an empty list, like Python `split`). -/
def splitChar (sep : Char) : List Char → List (List Char)
  | [] => [[]]
  | c :: t =>
    if c = sep then [] :: splitChar sep t
    else
      match splitChar sep t with
      | [] => [[c]]
      | h :: r => (c :: h) :: r

/-- Python's `s.split("  ")` (two-space separator), on character lists:
left-to-right scan, consuming both spaces at each match. -/
def splitTwoSpaces : List Char → List (List Char)
  | [] => [[]]
  | [c] => [[c]]
  | c1 :: c2 :: t =>
    if c1 = ' ' && c2 = ' ' then [] :: splitTwoSpaces t
    else
      match splitTwoSpaces (c2 :: t) with
      | [] => [[c1]]
      | h :: r => (c1 :: h) :: r

/-- Python's `sep.join(parts)`, on character lists. -/
def joinWith (sep : List Char) : List (List Char) → List Char
  | [] => []
  | [x] => x
  | x :: y :: r => x ++ sep ++ joinWith sep (y :: r)

/-- Python's `s.strip()`, on character lists. -/
def trimList (l : List Char) : List Char :=
  ((l.dropWhile Char.isWhitespace).reverse.dropWhile Char.isWhitespace).reverse

/-- Python's `s.split('/')[-1]`: last segment after splitting on `/`. -/
def lastSegment (s : String) : String :=
  ⟨(splitChar '/' s.data).getLastD []⟩

/-- Python's `'/'.join(url.split('/')[:3])`: the origin of an absolute URL. -/
def originOf (url : String) : String :=
  ⟨joinWith ['/'] ((splitChar '/' url.data).take 3)⟩

/-- Python truthiness of an optional string (`None` and `""` are falsy). -/
def truthy : Option String → Bool
  | none => false
  | some s => !s.isEmpty

/-! ### `exchange_data.py`: ExchangeDataCollector

Time is modelled as integer seconds; `timedelta(days=2)` is `ttl`.
A JSON numeric field is either missing (Python `.get(..., 0)` yields `0`),
malformed (`float(...)` raises, caught by the `except` clause), or a value. -/

/-- `timedelta(days=2)` in seconds. -/
def ttl : ℤ := 2 * 86400

/-- A numeric JSON field as read by `get_market_cap`. -/
inductive JsonNum
  | missing
  | malformed
  | val (q : ℚ)
deriving DecidableEq

/-- `float(d.get(section, {}).get(field, 0))`: `some` parsed value, or
`none` when `float` raises. -/
def parseField : JsonNum → Option ℚ
  | .missing => some 0
  | .malformed => none
  | .val q => some q

/-- The per-symbol detail blob returned by the quote endpoint, restricted
to the fields the code reads. -/
structure Detail where
  lastPrice : JsonNum
  issuedSize : JsonNum
  companyName : Option String
deriving DecidableEq

/-- One entry of the cache file: `{'timestamp': ..., 'data': ...}`. -/
structure CacheEntry where
  timestamp : ℤ
  data : Detail
deriving DecidableEq

/-- The cache file `stock_details_cache.json`: its mtime and its
symbol-keyed entries. -/
structure CacheFile where
  mtime : ℤ
  entries : List (String × CacheEntry)
deriving DecidableEq

/-- Python dict update `cache_data[symbol] = v` on an association list. -/
def putEntry (k : String) (v : CacheEntry) : List (String × CacheEntry) → List (String × CacheEntry)
  | [] => [(k, v)]
  | (k', v') :: t => if k' = k then (k, v) :: t else (k', v') :: putEntry k v t

/-- `ExchangeDataCollector._is_cache_valid`: the file exists and its
modification time is within the 2-day TTL. -/
def _is_cache_valid (now : ℤ) (file : Option CacheFile) : Bool :=
  match file with
  | none => false
  | some cf => !(decide (now - cf.mtime > ttl))

/-- `ExchangeDataCollector._get_from_cache`: returns the stored payload
unless the file is absent, the symbol is absent, or the entry's own
timestamp is older than the 2-day TTL. -/
def _get_from_cache (now : ℤ) (file : Option CacheFile) (symbol : String) : Option Detail :=
  match file with
  | none => none
  | some cf =>
    match cf.entries.lookup symbol with
    | none => none
    | some e => if now - e.timestamp > ttl then none else some e.data

/-- `ExchangeDataCollector._save_to_cache`: read the whole file (or start
from `{}`), set `entries[symbol] = {'timestamp': now, 'data': data}`,
write it back (the file's mtime becomes `now`). -/
def _save_to_cache (now : ℤ) (file : Option CacheFile) (symbol : String) (data : Detail) : Option CacheFile :=
  let entries := match file with
    | none => []
    | some cf => cf.entries
  some ⟨now, putEntry symbol ⟨now, data⟩ entries⟩

/-- Outcome of `self.nse_session.get(url)` followed by
`raise_for_status()` and `response.json()` for the quote endpoint. -/
inductive FetchOutcome
  | transportError
  | badJson
  | ok (d : Detail)

/-- The hard-coded ceiling in `get_stock_details`
(`if self.api_calls_count >= 2`). -/
def API_CALL_LIMIT : ℕ := 2

/-- Mutable collector state: the cache file and `self.api_calls_count`. -/
structure CollectorState where
  file : Option CacheFile
  api_calls_count : ℕ
deriving DecidableEq

/-- `ExchangeDataCollector.get_stock_details`, as a state transformer.
Returns the detail (`none` models the Python empty dict `{}`), whether a
network request was issued, and the new state.  Cache hit: no request.
Budget exhausted on a miss: empty, no request, state unchanged.
Otherwise a request is issued; on transport error the `except` clause
returns `{}` before the counter was incremented; on a JSON-parse error
the counter was already incremented but nothing is cached; on success the
counter is incremented and the payload cached. -/
def get_stock_details (fetch : String → FetchOutcome) (now : ℤ)
    (st : CollectorState) (symbol : String) : Option Detail × Bool × CollectorState :=
  match _get_from_cache now st.file symbol with
  | some d => (some d, false, st)
  | none =>
    if API_CALL_LIMIT ≤ st.api_calls_count then
      (none, false, st)
    else
      match fetch symbol with
      | .transportError => (none, true, st)
      | .badJson => (none, true, ⟨st.file, st.api_calls_count + 1⟩)
      | .ok data =>
          (some data, true, ⟨_save_to_cache now st.file symbol data, st.api_calls_count + 1⟩)

/-- State after a sequence of `get_stock_details` calls
(each request is a timestamp/symbol pair). -/
def runCalls (fetch : String → FetchOutcome) (reqs : List (ℤ × String))
    (st : CollectorState) : CollectorState :=
  reqs.foldl (fun s r => (get_stock_details fetch r.1 s r.2).2.2) st

/-- `ExchangeDataCollector.get_market_cap`:
`(lastPrice * issuedSize) / 10000000`, with `0` on a missing or malformed
field (missing fields default to `0`, malformed ones raise into the
`except` clause which returns `0`). -/
def get_market_cap (stock_data : Detail) : ℚ :=
  match parseField stock_data.lastPrice, parseField stock_data.issuedSize with
  | some lp, some iss => lp * iss / 10000000
  | _, _ => 0

/-- `ExchangeDataCollector.filter_by_market_cap` with explicit band
(defaults `100` and `10000` at the call site in `get_eligible_stocks`). -/
def filter_by_market_cap (stock_data : Detail) (min_cap max_cap : ℚ) : Bool :=
  decide (min_cap ≤ get_market_cap stock_data) && decide (get_market_cap stock_data ≤ max_cap)

/-- One row of the eligible-stocks DataFrame. -/
structure EligibleRow where
  symbol : String
  company_name : String
  market_cap : ℚ
  exchange : String
deriving DecidableEq

/-- The per-symbol loop of `get_eligible_stocks`: fetch detail, skip
when it is empty, keep the row when `filter_by_market_cap` passes. -/
def eligibleLoop (fetch : String → FetchOutcome) (now : ℤ) :
    List String → CollectorState → List EligibleRow × CollectorState
  | [], st => ([], st)
  | symbol :: rest, st =>
    match get_stock_details fetch now st symbol with
    | (none, _, st') => eligibleLoop fetch now rest st'
    | (some d, _, st') =>
      let (tail, stf) := eligibleLoop fetch now rest st'
      if filter_by_market_cap d 100 10000 then
        (⟨symbol, d.companyName.getD "", get_market_cap d, "NSE"⟩ :: tail, stf)
      else
        (tail, stf)

/-- `ExchangeDataCollector.get_eligible_stocks`: empty on a cookie-priming
failure or an empty symbol listing, otherwise the filtered loop
(the session priming and the listing endpoint are external oracles). -/
def get_eligible_stocks (fetch : String → FetchOutcome) (now : ℤ)
    (cookiesOk : Bool) (symbols : List String) (st : CollectorState) :
    List EligibleRow × CollectorState :=
  if !cookiesOk then ([], st)
  else if symbols.isEmpty then ([], st)
  else eligibleLoop fetch now symbols st

/-! ### `stock_ratings.py`: StockRatingsAnalyzer.get_rating_page_text

`requests.get` is an oracle returning either a transport error (raised by
`raise_for_status` / the request itself) or a response with a declared
`Content-Type` header (`""` when absent) and, when the body is opened as a
PDF, the list of per-page `extract_text()` results (`none` per page when
the page yields no text, which makes `text + "\n"` raise `TypeError`;
`none` for the whole body when `pdfplumber.open` itself raises). -/

/-- Outcome of `requests.get(url)` in the retrieval module. -/
inductive Fetched
  | err
  | ok (contentType : String) (pdfPages : Option (List (Option String)))

/-- What the code extracts from the Playwright-rendered page after
BeautifulSoup parsing: the text of the document with `script`/`style`
removed, and the `src` of an `iframe` inside a `div.pdf_holder`
(`none` when the holder, the iframe or its `src` attribute is absent). -/
structure RenderedPage where
  textRaw : String
  iframeSrc : Option String

/-- The web environment seen by `get_rating_page_text`: plain HTTP
requests and the Playwright rendering of a page (`none` when rendering or
fetching the page raises). -/
structure Web where
  http : String → Fetched
  render : String → Option RenderedPage

/-- The result dict `{'page_text': ..., 'pdf_text': ...}`. -/
structure RetrievalResult where
  page_text : Option String
  pdf_text : Option String
deriving DecidableEq

/-- The loop `for page in pdf.pages: pdf_text += page.extract_text() + "\n"`:
`none` when any page's `extract_text()` returns `None` (the `+` raises
`TypeError`, caught by the outer `except`). -/
def buildPdfText : List (Option String) → Option String
  | [] => some ""
  | none :: _ => none
  | some t :: rest => (buildPdfText rest).map (fun r => t ++ "\n" ++ r)

/-- The whitespace normalisation applied to the rendered page's text:
strip each line, split lines on double spaces, strip the phrases, join the
non-empty chunks with single spaces. -/
def normalizeText (s : String) : String :=
  let lines := (splitChar '\n' s.data).map trimList
  let chunks := (lines.map (fun l => (splitTwoSpaces l).map trimList)).flatten
  ⟨joinWith [' '] (chunks.filter (fun c => !c.isEmpty))⟩

/-- The report-viewer pattern looked for in the iframe source. -/
def viewerPattern : String := "/Rating/ShowRationalReportFilePdf/"

/-- The URL-rewriting step: when the iframe source matches the
report-viewer pattern, substitute its trailing path segment into the
direct-download template, else keep the source unchanged. -/
def rewriteIframeSrc (src : String) : String :=
  if strContains src viewerPattern then
    "/Rating/GetRationalReportFilePdf?Id=" ++ lastSegment src
  else src

/-- `StockRatingsAnalyzer.get_rating_page_text`: fetch the link; if the
declared content type contains `application/pdf`, extract the PDF text
directly and stop.  Otherwise render with Playwright, normalise the page
text, look for an embedded-PDF iframe, rewrite/resolve its URL, fetch it,
and attach its text when the second response is a PDF.  Any raised error
(transport, PDF parse, `TypeError` on a textless page, failed rendering)
falls into the `except` clauses and yields `none`. -/
def get_rating_page_text (web : Web) (rating_link : String) : Option RetrievalResult :=
  match web.http rating_link with
  | .err => none
  | .ok ct body =>
    if strContains (lowerStr ct) "application/pdf" then
      match body with
      | none => none
      | some pages =>
        match buildPdfText pages with
        | none => none
        | some txt => some ⟨none, some txt⟩
    else
      match web.render rating_link with
      | none => none
      | some rp =>
        let page_text := normalizeText rp.textRaw
        let srcOpt : Option String :=
          match rp.iframeSrc with
          | none => none
          | some s => if s.isEmpty then none else some s
        match srcOpt with
        | none => some ⟨some page_text, none⟩
        | some src =>
          let u0 := rewriteIframeSrc src
          let u := if strStartsWith u0 "http" then u0 else originOf rating_link ++ u0
          match web.http u with
          | .err => none
          | .ok ct2 body2 =>
            if strContains (lowerStr ct2) "application/pdf" then
              match body2 with
              | none => none
              | some pages =>
                match buildPdfText pages with
                | none => none
                | some t => some ⟨some page_text, some t⟩
            else some ⟨some page_text, none⟩

/-! ### `ratings_collector.py`: RatingsCollector

The durable store `ratings.txt` is `Option String` (`none`: the file does
not exist; appends create it).  `get_credit_ratings_link` and
`get_rating_page_text` are oracles (both purely determined by the outside
web content within one session).  A processed entity makes two
collector-level network operations (the link lookup and the retrieval);
a skipped-because-rated entity makes zero. -/

/-- One row of the eligible-stocks DataFrame as consumed by
`collect_ratings` (the market cap is kept as its printed form, since the
collector only writes it into the record text). -/
structure Entity where
  symbol : String
  company_name : String
  market_cap : String
deriving DecidableEq

/-- The external calls made per entity by `collect_ratings`. -/
structure CollectOracles where
  linkOf : String → Option String
  retrieve : String → Option RetrievalResult

/-- `'='*80`. -/
def eq80 : String := ⟨List.replicate 80 '='⟩

/-- `'-'*80`. -/
def dash80 : String := ⟨List.replicate 80 '-'⟩

/-- The completion marker `Stock: <symbol>` searched for and written. -/
def marker (symbol : String) : String := "Stock: " ++ symbol

/-- `RatingsCollector._is_stock_rated`: `False` when the file does not
exist, else a raw substring search for `Stock: <symbol>`. -/
def _is_stock_rated (store : Option String) (symbol : String) : Bool :=
  match store with
  | none => false
  | some content => strContains content (marker symbol)

/-- The record block appended by `RatingsCollector.save_ratings`. -/
def ratingsBlock (symbol timestamp company mcap link : String)
    (content : RetrievalResult) : String :=
  "\n" ++ eq80 ++ "\n" ++ marker symbol ++ "\nTimestamp: " ++ timestamp ++
  "\nCompany Name: " ++ company ++ "\nMarket Cap: " ++ mcap ++
  "\nRating Link: " ++ link ++ "\n" ++ dash80 ++ "\n" ++
  (if truthy content.page_text then "\nPage Text:\n" ++ content.page_text.getD "" ++ "\n" else "") ++
  (if truthy content.pdf_text then "\nPDF Text:\n" ++ content.pdf_text.getD "" ++ "\n" else "") ++
  eq80 ++ "\n"

/-- `RatingsCollector.save_ratings`: append the record block (opening in
mode `'a'` creates the file when absent). -/
def save_ratings (store : Option String) (symbol timestamp company mcap link : String)
    (content : RetrievalResult) : Option String :=
  some (store.getD "" ++ ratingsBlock symbol timestamp company mcap link content)

/-- One iteration of the `collect_ratings` loop: skip when already rated,
else look up the rating link (skip with a warning when none), retrieve the
content (skip with a warning when none), else append the record.  Returns
the new store, whether a record was appended, and the number of
collector-level network operations made for this entity. -/
def processStock (o : CollectOracles) (ts : String) (store : Option String)
    (e : Entity) : Option String × Bool × ℕ :=
  if _is_stock_rated store e.symbol then (store, false, 0)
  else
    match o.linkOf e.symbol with
    | none => (store, false, 1)
    | some link =>
      match o.retrieve link with
      | none => (store, false, 2)
      | some content =>
        (save_ratings store e.symbol ts e.company_name e.market_cap link content, true, 2)

/-- `RatingsCollector.collect_ratings` over the eligible rows: the final
store, the symbols appended this run (in order), and the total number of
collector-level network operations. -/
def collect_ratings (o : CollectOracles) (ts : String) :
    List Entity → Option String → Option String × List String × ℕ
  | [], store => (store, [], 0)
  | e :: rest, store =>
    let r1 := processStock o ts store e
    let r2 := collect_ratings o ts rest r1.1
    (r2.1, (if r1.2.1 then [e.symbol] else []) ++ r2.2.1, r1.2.2 + r2.2.2)

/-- Store refinement: every completion marker found in the first store is
found in the second. -/
def storeLe (s1 s2 : Option String) : Prop :=
  ∀ m, _is_stock_rated s1 m = true → _is_stock_rated s2 m = true

/-! ### Concrete environments used to evaluate the development -/

/-- A web where every URL answers with a 2-page PDF. -/
def pdfWeb : Web :=
  ⟨fun _ => .ok "application/pdf" (some [some "page1", some "page2"]), fun _ => none⟩

/-- A web where the page renders to no text and holds no iframe. -/
def blankPageWeb : Web :=
  ⟨fun _ => .ok "text/html" none, fun _ => some ⟨"", none⟩⟩

/-- A web answering a 1-page PDF everywhere, for the success invariant. -/
def onePageWeb : Web :=
  ⟨fun _ => .ok "application/pdf" (some [some "body"]), fun _ => none⟩

/-- A web whose landing page embeds a report-viewer iframe and whose
direct-download endpoint answers a 1-page PDF. -/
def embeddedWeb : Web :=
  ⟨fun u => if u = "https://host/page" then .ok "text/html" none
    else .ok "application/pdf" (some [some "report"]),
   fun _ => some ⟨"The Report", some "/Rating/ShowRationalReportFilePdf/77"⟩⟩

/-- A web answering a PDF one page of which yields no extractable text. -/
def textlessPageWeb : Web :=
  ⟨fun _ => .ok "application/pdf" (some [some "p1", none]), fun _ => none⟩

/-- Oracles for a collector run: every symbol has a rating link, and every
link retrieves some page text. -/
def okOracles : CollectOracles :=
  ⟨fun _ => some "https://host/doc", fun _ => some ⟨some "ptext", none⟩⟩

/-- An eligible entity row used to exercise the collector. -/
def entA : Entity := ⟨"A", "CompanyA", "500.0"⟩

/-- A detail-fetch oracle answering a fixed quote blob for every symbol. -/
def bandFetch : String → FetchOutcome :=
  fun _ => .ok ⟨.val 100, .val 50000000, some "Co"⟩

/-! ### Helper lemmas: substring search on character lists -/

theorem data_append (s t : String) : (s ++ t).data = s.data ++ t.data := rfl

theorem pfx_iff {a b : List Char} : a.isPrefixOf b = true ↔ a <+: b :=
  List.isPrefixOf_iff_prefix

theorem contains_of_pfx {hay n : List Char} (h : n <+: hay) :
    containsList hay n = true := by
  cases hay with
  | nil =>
    obtain rfl := List.prefix_nil.mp h
    rfl
  | cons c t => simp [containsList]; exact Or.inl h

theorem contains_cons_of_contains {t n : List Char} (c : Char)
    (h : containsList t n = true) : containsList (c :: t) n = true := by
  simp [containsList, h]

theorem contains_append_right {hay n : List Char} (pre : List Char)
    (h : containsList hay n = true) : containsList (pre ++ hay) n = true := by
  induction pre with
  | nil => simpa using h
  | cons c t ih => exact contains_cons_of_contains c ih

theorem contains_append_left {hay n : List Char} (suf : List Char)
    (h : containsList hay n = true) : containsList (hay ++ suf) n = true := by
  induction hay with
  | nil =>
    simp [containsList] at h
    subst h
    cases suf with
    | nil => rfl
    | cons c t => simp [containsList]
  | cons c t ih =>
    simp only [containsList, Bool.or_eq_true, pfx_iff] at h ⊢
    rcases h with h | h
    · exact Or.inl (h.trans (List.prefix_append (c :: t) suf))
    · exact Or.inr (ih h)

theorem contains_mono_needle {hay n1 n2 : List Char}
    (hpre : n1 <+: n2) (h : containsList hay n2 = true) :
    containsList hay n1 = true := by
  induction hay with
  | nil =>
    simp [containsList] at h
    subst h
    obtain rfl := List.prefix_nil.mp hpre
    rfl
  | cons c t ih =>
    simp only [containsList, Bool.or_eq_true, pfx_iff] at h ⊢
    rcases h with h | h
    · exact Or.inl (hpre.trans h)
    · exact Or.inr (ih h)

theorem strContains_append_right {t n : String} (s : String)
    (h : strContains t n = true) : strContains (s ++ t) n = true := by
  unfold strContains at h ⊢
  rw [data_append]
  exact contains_append_right s.data h

theorem strContains_append_left {s n : String} (t : String)
    (h : strContains s n = true) : strContains (s ++ t) n = true := by
  unfold strContains at h ⊢
  rw [data_append]
  exact contains_append_left t.data h

theorem strContains_self_append (n t : String) : strContains (n ++ t) n = true := by
  unfold strContains
  rw [data_append]
  exact contains_of_pfx (List.prefix_append n.data t.data)

/-! ### Helper lemmas: the append-only ratings store -/

theorem strContains_mid (p n s : String) : strContains (p ++ n ++ s) n = true := by
  rw [String.append_assoc]
  exact strContains_append_right p (strContains_self_append n s)

theorem marker_in_block (sym ts c mc l : String) (cont : RetrievalResult) :
    strContains (ratingsBlock sym ts c mc l cont) (marker sym) = true := by
  have h : ratingsBlock sym ts c mc l cont =
      ("\n" ++ eq80 ++ "\n") ++ marker sym ++
      ("\nTimestamp: " ++ ts ++ "\nCompany Name: " ++ c ++ "\nMarket Cap: " ++ mc ++
       "\nRating Link: " ++ l ++ "\n" ++ dash80 ++ "\n" ++
       ((if truthy cont.page_text then "\nPage Text:\n" ++ cont.page_text.getD "" ++ "\n" else "") ++
        ((if truthy cont.pdf_text then "\nPDF Text:\n" ++ cont.pdf_text.getD "" ++ "\n" else "") ++
         (eq80 ++ "\n")))) := by
    simp [ratingsBlock, String.append_assoc]
  rw [h]
  exact strContains_mid _ _ _

theorem rated_save_self (store : Option String) (sym ts c mc l : String)
    (cont : RetrievalResult) :
    _is_stock_rated (save_ratings store sym ts c mc l cont) sym = true := by
  unfold save_ratings _is_stock_rated
  exact strContains_append_right _ (marker_in_block sym ts c mc l cont)

theorem storeLe_save (store : Option String) (sym ts c mc l : String)
    (cont : RetrievalResult) :
    storeLe store (save_ratings store sym ts c mc l cont) := by
  intro m hm
  unfold _is_stock_rated at hm ⊢
  unfold save_ratings
  cases store with
  | none => exact absurd hm (by simp)
  | some content =>
    simp only [Option.getD_some]
    exact strContains_append_left _ hm

theorem storeLe_refl (s : Option String) : storeLe s s := fun _ h => h

theorem storeLe_trans {a b c : Option String}
    (h1 : storeLe a b) (h2 : storeLe b c) : storeLe a c :=
  fun m hm => h2 m (h1 m hm)

theorem processStock_skip (o : CollectOracles) (ts : String) (store : Option String)
    (e : Entity) (h : _is_stock_rated store e.symbol = true) :
    processStock o ts store e = (store, false, 0) := by
  simp [processStock, h]

theorem processStock_eq_nolink (o : CollectOracles) (ts : String) (store : Option String)
    (e : Entity) (h : _is_stock_rated store e.symbol = false)
    (hl : o.linkOf e.symbol = none) :
    processStock o ts store e = (store, false, 1) := by
  simp [processStock, h, hl]

theorem processStock_eq_nocontent (o : CollectOracles) (ts : String) (store : Option String)
    (e : Entity) (link : String) (h : _is_stock_rated store e.symbol = false)
    (hl : o.linkOf e.symbol = some link) (hr : o.retrieve link = none) :
    processStock o ts store e = (store, false, 2) := by
  simp [processStock, h, hl, hr]

theorem processStock_eq_save (o : CollectOracles) (ts : String) (store : Option String)
    (e : Entity) (link : String) (content : RetrievalResult)
    (h : _is_stock_rated store e.symbol = false)
    (hl : o.linkOf e.symbol = some link) (hr : o.retrieve link = some content) :
    processStock o ts store e =
      (save_ratings store e.symbol ts e.company_name e.market_cap link content, true, 2) := by
  simp [processStock, h, hl, hr]

theorem processStock_storeLe (o : CollectOracles) (ts : String) (store : Option String)
    (e : Entity) : storeLe store (processStock o ts store e).1 := by
  cases h : _is_stock_rated store e.symbol with
  | true => rw [processStock_skip o ts store e h]; exact storeLe_refl store
  | false =>
    cases hl : o.linkOf e.symbol with
    | none => rw [processStock_eq_nolink o ts store e h hl]; exact storeLe_refl store
    | some link =>
      cases hr : o.retrieve link with
      | none => rw [processStock_eq_nocontent o ts store e link h hl hr]; exact storeLe_refl store
      | some content =>
        rw [processStock_eq_save o ts store e link content h hl hr]
        exact storeLe_save store e.symbol ts e.company_name e.market_cap link content

theorem processStock_rated_of_append (o : CollectOracles) (ts : String)
    (store : Option String) (e : Entity) (h : (processStock o ts store e).2.1 = true) :
    _is_stock_rated (processStock o ts store e).1 e.symbol = true := by
  cases hrated : _is_stock_rated store e.symbol with
  | true => rw [processStock_skip o ts store e hrated] at h; simp at h
  | false =>
    cases hl : o.linkOf e.symbol with
    | none => rw [processStock_eq_nolink o ts store e hrated hl] at h; simp at h
    | some link =>
      cases hr : o.retrieve link with
      | none => rw [processStock_eq_nocontent o ts store e link hrated hl hr] at h; simp at h
      | some content =>
        rw [processStock_eq_save o ts store e link content hrated hl hr]
        exact rated_save_self store e.symbol ts e.company_name e.market_cap link content

theorem processStock_no_append (o : CollectOracles) (ts : String)
    (store : Option String) (e : Entity) (h : (processStock o ts store e).2.1 = false) :
    (processStock o ts store e).1 = store := by
  cases hrated : _is_stock_rated store e.symbol with
  | true => rw [processStock_skip o ts store e hrated]
  | false =>
    cases hl : o.linkOf e.symbol with
    | none => rw [processStock_eq_nolink o ts store e hrated hl]
    | some link =>
      cases hr : o.retrieve link with
      | none => rw [processStock_eq_nocontent o ts store e link hrated hl hr]
      | some content =>
        rw [processStock_eq_save o ts store e link content hrated hl hr] at h
        simp at h

theorem processStock_replay (o : CollectOracles) (ts1 ts2 : String)
    (store T : Option String) (e : Entity)
    (hle : storeLe store T)
    (h : (processStock o ts1 store e).2.1 = false) :
    (processStock o ts2 T e).1 = T ∧ (processStock o ts2 T e).2.1 = false := by
  cases hT : _is_stock_rated T e.symbol with
  | true => rw [processStock_skip o ts2 T e hT]; exact ⟨rfl, rfl⟩
  | false =>
    cases hrated : _is_stock_rated store e.symbol with
    | true =>
      have := hle e.symbol hrated
      rw [hT] at this
      simp at this
    | false =>
      cases hl : o.linkOf e.symbol with
      | none => rw [processStock_eq_nolink o ts2 T e hT hl]; exact ⟨rfl, rfl⟩
      | some link =>
        cases hr : o.retrieve link with
        | none => rw [processStock_eq_nocontent o ts2 T e link hT hl hr]; exact ⟨rfl, rfl⟩
        | some content =>
          rw [processStock_eq_save o ts1 store e link content hrated hl hr] at h
          simp at h

theorem collect_storeLe (o : CollectOracles) (ts : String) :
    ∀ (stocks : List Entity) (store : Option String),
      storeLe store (collect_ratings o ts stocks store).1 := by
  intro stocks
  induction stocks with
  | nil => intro store; exact storeLe_refl store
  | cons e rest ih =>
    intro store
    exact storeLe_trans (processStock_storeLe o ts store e)
      (ih (processStock o ts store e).1)

theorem collect_appended_rated (o : CollectOracles) (ts : String) :
    ∀ (stocks : List Entity) (store : Option String) (s : String),
      s ∈ (collect_ratings o ts stocks store).2.1 →
      _is_stock_rated (collect_ratings o ts stocks store).1 s = true := by
  intro stocks
  induction stocks with
  | nil => intro store s h; simp [collect_ratings] at h
  | cons e rest ih =>
    intro store s h
    simp only [collect_ratings, List.mem_append] at h
    rcases h with h | h
    · have hap : (processStock o ts store e).2.1 = true := by
        by_contra hfalse
        simp [Bool.not_eq_true] at hfalse
        simp [hfalse] at h
      have h1 := processStock_rated_of_append o ts store e hap
      have hs : s = e.symbol := by
        simp [hap] at h
        exact h
      subst hs
      exact collect_storeLe o ts rest (processStock o ts store e).1 e.symbol h1
    · exact ih (processStock o ts store e).1 s h

theorem collect_replay (o : CollectOracles) (ts1 ts2 : String) :
    ∀ (stocks : List Entity) (store T : Option String),
      storeLe (collect_ratings o ts1 stocks store).1 T →
      (collect_ratings o ts2 stocks T).1 = T ∧
      (collect_ratings o ts2 stocks T).2.1 = [] := by
  intro stocks
  induction stocks with
  | nil => intro store T _; exact ⟨rfl, rfl⟩
  | cons e rest ih =>
    intro store T hle
    have hle1 : storeLe (collect_ratings o ts1 rest (processStock o ts1 store e).1).1 T := hle
    have hstep : (processStock o ts2 T e).1 = T ∧ (processStock o ts2 T e).2.1 = false := by
      cases hap : (processStock o ts1 store e).2.1 with
      | true =>
        have h1 := processStock_rated_of_append o ts1 store e hap
        have h2 : _is_stock_rated T e.symbol = true := by
          have h3 := collect_storeLe o ts1 rest (processStock o ts1 store e).1
          exact hle1 e.symbol (h3 e.symbol h1)
        rw [processStock_skip o ts2 T e h2]
        exact ⟨rfl, rfl⟩
      | false =>
        have hst : (processStock o ts1 store e).1 = store := processStock_no_append o ts1 store e hap
        have hleS : storeLe store T := by
          have h3 := collect_storeLe o ts1 rest (processStock o ts1 store e).1
          rw [hst] at hle1 h3
          exact storeLe_trans h3 hle1
        exact processStock_replay o ts1 ts2 store T e hleS hap
    have hrest := ih (processStock o ts1 store e).1 (processStock o ts2 T e).1
      (by rw [hstep.1]; exact hle1)
    rw [hstep.1] at hrest
    constructor
    · show (collect_ratings o ts2 rest (processStock o ts2 T e).1).1 = T
      rw [hstep.1]
      exact hrest.1
    · show (if (processStock o ts2 T e).2.1 then [e.symbol] else []) ++
        (collect_ratings o ts2 rest (processStock o ts2 T e).1).2.1 = []
      rw [hstep.2, hstep.1]
      simp [hrest.2]

theorem pfx_append_same (p : List Char) {a b : List Char} (h : a <+: b) :
    p ++ a <+: p ++ b := by
  obtain ⟨u, hu⟩ := h
  exact ⟨u, by rw [List.append_assoc, hu]⟩

/-! ### Claim theorems -/

/-- C1: running `collect_ratings` twice over the same entities is
idempotent: every symbol appended in the first run has its
`Stock: <symbol>` marker in the resulting store, so the second run's
`_is_stock_rated` check skips its entity (no append, zero network calls
for it), and the second run as a whole appends no record and leaves the
store unchanged. -/
theorem collect_ratings_idempotent (o : CollectOracles) (ts1 ts2 : String)
    (stocks : List Entity) (store0 : Option String) :
    (∀ s, s ∈ (collect_ratings o ts1 stocks store0).2.1 →
      _is_stock_rated (collect_ratings o ts1 stocks store0).1 s = true ∧
      ∀ e : Entity, e.symbol = s →
        processStock o ts2 (collect_ratings o ts1 stocks store0).1 e =
          ((collect_ratings o ts1 stocks store0).1, false, 0)) ∧
    (collect_ratings o ts2 stocks (collect_ratings o ts1 stocks store0).1).1 =
      (collect_ratings o ts1 stocks store0).1 ∧
    (collect_ratings o ts2 stocks (collect_ratings o ts1 stocks store0).1).2.1 = [] := by
  refine ⟨?_, ?_⟩
  · intro s hs
    have h1 := collect_appended_rated o ts1 stocks store0 s hs
    refine ⟨h1, ?_⟩
    intro e he
    have h2 : _is_stock_rated (collect_ratings o ts1 stocks store0).1 e.symbol = true := by
      rw [he]; exact h1
    exact processStock_skip o ts2 _ e h2
  · exact collect_replay o ts1 ts2 stocks store0 _ (storeLe_refl _)

theorem collect_ratings_idempotent_witness :
    _is_stock_rated (collect_ratings okOracles "t1" [entA] none).1 "A" = true ∧
    processStock okOracles "t2" (collect_ratings okOracles "t1" [entA] none).1 entA =
      ((collect_ratings okOracles "t1" [entA] none).1, false, 0) ∧
    (collect_ratings okOracles "t2" [entA] (collect_ratings okOracles "t1" [entA] none).1).2.1 = [] :=
  ⟨((collect_ratings_idempotent okOracles "t1" "t2" [entA] none).1 "A" (by decide)).1,
   ((collect_ratings_idempotent okOracles "t1" "t2" [entA] none).1 "A" (by decide)).2 entA rfl,
   (collect_ratings_idempotent okOracles "t1" "t2" [entA] none).2.2⟩

/-- C9: `_is_stock_rated` is a raw substring search, so a symbol `s` that
is a prefix of an already-recorded symbol `t` is reported as rated, and
`collect_ratings` skips its entity without appending a record or making a
network call. -/
theorem rated_of_marker_extension (content s t : String)
    (hpre : s.data.isPrefixOf t.data = true)
    (hcontent : strContains content (marker t) = true) :
    _is_stock_rated (some content) s = true ∧
    ∀ (o : CollectOracles) (ts : String) (e : Entity), e.symbol = s →
      processStock o ts (some content) e = (some content, false, 0) := by
  have hm : (marker s).data <+: (marker t).data := by
    unfold marker
    rw [data_append, data_append]
    exact pfx_append_same _ (pfx_iff.mp hpre)
  have hrated : _is_stock_rated (some content) s = true := by
    unfold _is_stock_rated strContains
    unfold strContains at hcontent
    exact contains_mono_needle hm hcontent
  refine ⟨hrated, ?_⟩
  intro o ts e he
  have h2 : _is_stock_rated (some content) e.symbol = true := by rw [he]; exact hrated
  exact processStock_skip o ts (some content) e h2

theorem rated_of_marker_extension_witness :
    _is_stock_rated (some (ratingsBlock "ABCD" "t" "Co" "5" "L" ⟨none, none⟩)) "ABC" = true ∧
    processStock okOracles "t2" (some (ratingsBlock "ABCD" "t" "Co" "5" "L" ⟨none, none⟩))
        ⟨"ABC", "C", "1"⟩ =
      (some (ratingsBlock "ABCD" "t" "Co" "5" "L" ⟨none, none⟩), false, 0) :=
  ⟨(rated_of_marker_extension (ratingsBlock "ABCD" "t" "Co" "5" "L" ⟨none, none⟩) "ABC" "ABCD"
      (by decide) (by decide)).1,
   (rated_of_marker_extension (ratingsBlock "ABCD" "t" "Co" "5" "L" ⟨none, none⟩) "ABC" "ABCD"
      (by decide) (by decide)).2 okOracles "t2" ⟨"ABC", "C", "1"⟩ rfl⟩

theorem api_calls_step_le (fetch : String → FetchOutcome) (now : ℤ)
    (st : CollectorState) (symbol : String)
    (h : st.api_calls_count ≤ API_CALL_LIMIT) :
    (get_stock_details fetch now st symbol).2.2.api_calls_count ≤ API_CALL_LIMIT := by
  cases hc : _get_from_cache now st.file symbol with
  | some d => simp [get_stock_details, hc]; exact h
  | none =>
    by_cases hb : API_CALL_LIMIT ≤ st.api_calls_count
    · simp [get_stock_details, hc, hb]; exact h
    · cases hf : fetch symbol with
      | transportError => simp [get_stock_details, hc, hb, hf]; exact h
      | badJson =>
        simp [get_stock_details, hc, hb, hf]
        simp [API_CALL_LIMIT] at hb ⊢
        omega
      | ok data =>
        simp [get_stock_details, hc, hb, hf]
        simp [API_CALL_LIMIT] at hb ⊢
        omega

/-- C3: once `api_calls_count` has reached the fixed ceiling (2), every
further cache-miss call to `get_stock_details` returns empty without a
network request and without touching the state; consequently the counter
never exceeds the ceiling over any sequence of calls that starts within
budget. -/
theorem get_stock_details_budget (fetch : String → FetchOutcome) (now : ℤ)
    (st : CollectorState) (symbol : String)
    (hmiss : _get_from_cache now st.file symbol = none)
    (hceil : API_CALL_LIMIT ≤ st.api_calls_count) :
    get_stock_details fetch now st symbol = (none, false, st) ∧
    ∀ (reqs : List (ℤ × String)) (st0 : CollectorState),
      st0.api_calls_count ≤ API_CALL_LIMIT →
      (runCalls fetch reqs st0).api_calls_count ≤ API_CALL_LIMIT := by
  constructor
  · simp [get_stock_details, hmiss, hceil]
  · intro reqs
    induction reqs with
    | nil => intro st0 h; exact h
    | cons r rest ih =>
      intro st0 h
      exact ih ((get_stock_details fetch r.1 st0 r.2).2.2) (api_calls_step_le fetch r.1 st0 r.2 h)

theorem get_stock_details_budget_witness :
    get_stock_details (fun _ => .transportError) 0 ⟨none, 2⟩ "X" = (none, false, ⟨none, 2⟩) ∧
    (runCalls (fun _ => .transportError) [(0, "X"), (0, "Y"), (0, "Z")]
        ⟨none, 0⟩).api_calls_count ≤ API_CALL_LIMIT :=
  ⟨(get_stock_details_budget (fun _ => .transportError) 0 ⟨none, 2⟩ "X" rfl (by decide)).1,
   (get_stock_details_budget (fun _ => .transportError) 0 ⟨none, 2⟩ "X" rfl (by decide)).2
     [(0, "X"), (0, "Y"), (0, "Z")] ⟨none, 0⟩ (by decide)⟩

/-- C4 counterexample: the cache read path does not consult the file-wide
mtime check: a cache whose file mtime fails `_is_cache_valid` still serves
an entry whose own timestamp is fresh, so the TTL is not "checked both
file-wide and per-entry" on reads. -/
theorem cache_read_ignores_file_mtime :
    _is_cache_valid 1000000 (some ⟨0, [("X", ⟨1000000, ⟨.val 1, .val 1, none⟩⟩)]⟩) = false ∧
    _get_from_cache 1000000 (some ⟨0, [("X", ⟨1000000, ⟨.val 1, .val 1, none⟩⟩)]⟩) "X" =
      some ⟨.val 1, .val 1, none⟩ := by
  constructor
  · rfl
  · rfl

/-- C4 (amended): the 2-day TTL is enforced per-entry on reads: an entry
whose stored timestamp is more than 2 days old is never served
(`_get_from_cache` returns empty), and an absent cache file also reads as
empty; the file-wide mtime check exists (`_is_cache_valid`) but the read
path does not invoke it. -/
theorem _get_from_cache_stale (now : ℤ) (cf : CacheFile) (symbol : String) (e : CacheEntry)
    (hl : cf.entries.lookup symbol = some e)
    (hstale : now - e.timestamp > ttl) :
    _get_from_cache now (some cf) symbol = none ∧
    ∀ sym2, _get_from_cache now none sym2 = none := by
  constructor
  · simp [_get_from_cache, hl, hstale]
  · intro sym2; rfl

theorem _get_from_cache_stale_witness :
    _get_from_cache 1000000 (some ⟨1000000, [("X", ⟨0, ⟨.missing, .missing, none⟩⟩)]⟩) "X" =
      none :=
  (_get_from_cache_stale 1000000 ⟨1000000, [("X", ⟨0, ⟨.missing, .missing, none⟩⟩)]⟩ "X"
    ⟨0, ⟨.missing, .missing, none⟩⟩ rfl (by decide)).1

/-- C5: `get_market_cap` returns `(lastPrice * issuedSize) / 10000000`
when both fields parse, and `0` when either field is missing or
malformed. -/
theorem get_market_cap_spec (d : Detail) :
    (∀ lp iss : ℚ, d.lastPrice = .val lp → d.issuedSize = .val iss →
      get_market_cap d = lp * iss / 10000000) ∧
    ((d.lastPrice = .missing ∨ d.lastPrice = .malformed ∨
      d.issuedSize = .missing ∨ d.issuedSize = .malformed) →
      get_market_cap d = 0) := by
  obtain ⟨lp0, iss0, cn⟩ := d
  constructor
  · rintro lp iss rfl rfl
    rfl
  · rintro (rfl | rfl | rfl | rfl)
    · cases iss0 <;> simp [get_market_cap, parseField]
    · cases iss0 <;> simp [get_market_cap, parseField]
    · cases lp0 <;> simp [get_market_cap, parseField]
    · cases lp0 <;> simp [get_market_cap, parseField]

theorem get_market_cap_spec_witness :
    get_market_cap ⟨.val 100, .val 600000, none⟩ = 6 ∧
    get_market_cap ⟨.missing, .val 600000, none⟩ = 0 := by
  constructor
  · have h := (get_market_cap_spec ⟨.val 100, .val 600000, none⟩).1 100 600000 rfl rfl
    rw [h]
    norm_num
  · exact (get_market_cap_spec ⟨.missing, .val 600000, none⟩).2 (Or.inl rfl)

theorem eligibleLoop_band (fetch : String → FetchOutcome) (now : ℤ) :
    ∀ (symbols : List String) (st : CollectorState) (row : EligibleRow),
      row ∈ (eligibleLoop fetch now symbols st).1 →
      100 ≤ row.market_cap ∧ row.market_cap ≤ 10000 := by
  intro symbols
  induction symbols with
  | nil => intro st row h; simp [eligibleLoop] at h
  | cons s rest ih =>
    intro st row h
    rcases hd : get_stock_details fetch now st s with ⟨d, b, st'⟩
    cases d with
    | none =>
      simp only [eligibleLoop, hd] at h
      exact ih st' row h
    | some detail =>
      rcases hloop : eligibleLoop fetch now rest st' with ⟨tail, stf⟩
      simp only [eligibleLoop, hd, hloop] at h
      split at h
      · rename_i hf
        rcases List.mem_cons.mp h with hrow | hrow
        · subst hrow
          simp only [filter_by_market_cap, Bool.and_eq_true, decide_eq_true_eq] at hf
          exact hf
        · exact ih st' row (by rw [hloop]; exact hrow)
      · exact ih st' row (by rw [hloop]; exact h)

/-- C7: every row returned by `get_eligible_stocks` has a market cap in
the inclusive band `100 ≤ marketCap ≤ 10000`; symbols outside the band or
whose detail fetch returned empty contribute no row. -/
theorem get_eligible_stocks_band (fetch : String → FetchOutcome) (now : ℤ)
    (cookiesOk : Bool) (symbols : List String) (st : CollectorState) :
    ∀ row ∈ (get_eligible_stocks fetch now cookiesOk symbols st).1,
      100 ≤ row.market_cap ∧ row.market_cap ≤ 10000 := by
  intro row h
  unfold get_eligible_stocks at h
  split at h
  · simp at h
  · split at h
    · simp at h
    · exact eligibleLoop_band fetch now symbols st row h

theorem get_eligible_stocks_band_witness :
    100 ≤ (⟨"S", "Co", 500, "NSE"⟩ : EligibleRow).market_cap ∧
    (⟨"S", "Co", 500, "NSE"⟩ : EligibleRow).market_cap ≤ 10000 :=
  get_eligible_stocks_band bandFetch 0 true ["S"] ⟨none, 0⟩ ⟨"S", "Co", 500, "NSE"⟩ (by
    simp [get_eligible_stocks, eligibleLoop, get_stock_details, _get_from_cache,
      _save_to_cache, bandFetch, filter_by_market_cap, get_market_cap, parseField,
      API_CALL_LIMIT]
    norm_num)

theorem buildPdfText_none (pages : List (Option String)) (h : none ∈ pages) :
    buildPdfText pages = none := by
  induction pages with
  | nil => simp at h
  | cons p rest ih =>
    cases p with
    | none => rfl
    | some t =>
      rcases List.mem_cons.mp h with h1 | h1
      · exact absurd h1.symm (by simp)
      · simp [buildPdfText, ih h1]

/-- C2: when the first response's declared content type is a PDF,
`get_rating_page_text` never consults the rendering stage (the result is
independent of the `render` oracle) and, when every page extracts,
returns `{page_text := none, pdf_text := the page texts each followed by
a newline}`. -/
theorem get_rating_page_text_direct_pdf (web : Web) (url ct : String)
    (pages : List (Option String))
    (h1 : web.http url = .ok ct (some pages))
    (h2 : strContains (lowerStr ct) "application/pdf" = true) :
    (∀ render2 : String → Option RenderedPage,
      get_rating_page_text ⟨web.http, render2⟩ url = get_rating_page_text web url) ∧
    ∀ txt, buildPdfText pages = some txt →
      get_rating_page_text web url = some ⟨none, some txt⟩ := by
  constructor
  · intro render2
    simp [get_rating_page_text, h1, h2]
  · intro txt htxt
    simp [get_rating_page_text, h1, h2, htxt]

theorem get_rating_page_text_direct_pdf_witness :
    get_rating_page_text pdfWeb "https://host/doc.pdf" = some ⟨none, some "page1\npage2\n"⟩ :=
  (get_rating_page_text_direct_pdf pdfWeb "https://host/doc.pdf" "application/pdf"
    [some "page1", some "page2"] rfl (by decide)).2 "page1\npage2\n" (by decide)

/-- C10: in the direct-PDF stage, a page whose `extract_text()` yields no
text makes the string concatenation raise, so `get_rating_page_text`
returns `none` for the whole call instead of a partial `pdf_text`. -/
theorem get_rating_page_text_textless (web : Web) (url ct : String)
    (pages : List (Option String))
    (h1 : web.http url = .ok ct (some pages))
    (h2 : strContains (lowerStr ct) "application/pdf" = true)
    (h3 : none ∈ pages) :
    get_rating_page_text web url = none := by
  simp [get_rating_page_text, h1, h2, buildPdfText_none pages h3]

theorem get_rating_page_text_textless_witness :
    get_rating_page_text textlessPageWeb "https://host/doc.pdf" = none :=
  get_rating_page_text_textless textlessPageWeb "https://host/doc.pdf" "application/pdf"
    [some "p1", none] rfl (by decide) (by decide)

/-- C6 counterexample: a successful retrieval can return a result with
both fields empty of text: a page that renders to no text and embeds no
document yields `some {page_text := some "", pdf_text := none}`, not
`none` — so "at least one of the two is populated with non-empty text on
success" fails on the code. -/
theorem retrieval_result_both_empty :
    get_rating_page_text blankPageWeb "http://x" = some ⟨some "", none⟩ ∧
    truthy (some "") = false ∧ truthy (none : Option String) = false :=
  ⟨by decide, rfl, rfl⟩

/-- C6 (amended): every non-`none` result of `get_rating_page_text` has
at least one field present (`pdf_text` in the direct-PDF path, `page_text`
otherwise), though the present field may be the empty string; `none` is
returned only on failure paths. -/
theorem get_rating_page_text_some_field (web : Web) (url : String) (r : RetrievalResult)
    (h : get_rating_page_text web url = some r) :
    r.page_text.isSome = true ∨ r.pdf_text.isSome = true := by
  cases hh : web.http url with
  | err => simp [get_rating_page_text, hh] at h
  | ok ct body =>
    by_cases hct : strContains (lowerStr ct) "application/pdf" = true
    · cases body with
      | none => simp [get_rating_page_text, hh, hct] at h
      | some pages =>
        cases hb : buildPdfText pages with
        | none => simp [get_rating_page_text, hh, hct, hb] at h
        | some txt =>
          simp [get_rating_page_text, hh, hct, hb] at h
          simp [← h]
    · cases hr : web.render url with
      | none => simp [get_rating_page_text, hh, hct, hr] at h
      | some rp =>
        cases hsrc : rp.iframeSrc with
        | none =>
          simp [get_rating_page_text, hh, hct, hr, hsrc] at h
          simp [← h]
        | some s =>
          by_cases hse : s.isEmpty = true
          · simp [get_rating_page_text, hh, hct, hr, hsrc, hse] at h
            simp [← h]
          · cases hfetch : web.http (if strStartsWith (rewriteIframeSrc s) "http"
                then rewriteIframeSrc s else originOf url ++ rewriteIframeSrc s) with
            | err => simp [get_rating_page_text, hh, hct, hr, hsrc, hse, hfetch] at h
            | ok ct2 body2 =>
              by_cases hct2 : strContains (lowerStr ct2) "application/pdf" = true
              · cases body2 with
                | none => simp [get_rating_page_text, hh, hct, hr, hsrc, hse, hfetch, hct2] at h
                | some pages2 =>
                  cases hb2 : buildPdfText pages2 with
                  | none =>
                    simp [get_rating_page_text, hh, hct, hr, hsrc, hse, hfetch, hct2, hb2] at h
                  | some t =>
                    simp [get_rating_page_text, hh, hct, hr, hsrc, hse, hfetch, hct2, hb2] at h
                    simp [← h]
              · simp [get_rating_page_text, hh, hct, hr, hsrc, hse, hfetch, hct2] at h
                simp [← h]

theorem get_rating_page_text_some_field_witness :
    (⟨none, some "body\n"⟩ : RetrievalResult).page_text.isSome = true ∨
    (⟨none, some "body\n"⟩ : RetrievalResult).pdf_text.isSome = true :=
  get_rating_page_text_some_field onePageWeb "https://host/x" ⟨none, some "body\n"⟩ (by decide)

theorem template_not_http (pid : String) :
    strStartsWith ("/Rating/GetRationalReportFilePdf?Id=" ++ pid) "http" = false := by
  rw [Bool.eq_false_iff]
  intro htrue
  have hp : "http".data <+: ("/Rating/GetRationalReportFilePdf?Id=" ++ pid).data :=
    pfx_iff.mp htrue
  rw [data_append] at hp
  have h1 : "http".data = 'h' :: "ttp".data := rfl
  have h2 : "/Rating/GetRationalReportFilePdf?Id=".data =
      '/' :: "Rating/GetRationalReportFilePdf?Id=".data := rfl
  rw [h1, h2, List.cons_append] at hp
  have h3 := (List.cons_prefix_cons.mp hp).1
  exact absurd h3 (by decide)

/-- C8: in the embedded-PDF sub-stage, an iframe source matching the
report-viewer pattern has its trailing path segment substituted into the
fixed download template; the relative result is resolved against the
origin of the original URL and fetched; the call returns
`{page_text, pdf_text := extracted}` when that response declares a PDF
and `{page_text, pdf_text := none}` otherwise. -/
theorem get_rating_page_text_embedded (web : Web) (url ct1 : String)
    (b1 : Option (List (Option String))) (raw src ct2 : String)
    (b2 : Option (List (Option String)))
    (h1 : web.http url = .ok ct1 b1)
    (h2 : strContains (lowerStr ct1) "application/pdf" = false)
    (h3 : web.render url = some ⟨raw, some src⟩)
    (h4 : src.isEmpty = false)
    (h5 : strContains src viewerPattern = true)
    (h6 : web.http (originOf url ++ ("/Rating/GetRationalReportFilePdf?Id=" ++ lastSegment src)) =
      .ok ct2 b2) :
    (strContains (lowerStr ct2) "application/pdf" = false →
      get_rating_page_text web url = some ⟨some (normalizeText raw), none⟩) ∧
    (∀ pages t, b2 = some pages → buildPdfText pages = some t →
      strContains (lowerStr ct2) "application/pdf" = true →
      get_rating_page_text web url = some ⟨some (normalizeText raw), some t⟩) := by
  have hrw : rewriteIframeSrc src = "/Rating/GetRationalReportFilePdf?Id=" ++ lastSegment src := by
    simp [rewriteIframeSrc, h5]
  have hnh := template_not_http (lastSegment src)
  constructor
  · intro hct2
    simp [get_rating_page_text, h1, h2, h3, h4, hrw, hnh, h6, hct2]
  · intro pages t hpages ht hct2
    subst hpages
    simp [get_rating_page_text, h1, h2, h3, h4, hrw, hnh, h6, hct2, ht]

theorem get_rating_page_text_embedded_witness :
    get_rating_page_text embeddedWeb "https://host/page" =
      some ⟨some (normalizeText "The Report"), some "report\n"⟩ :=
  (get_rating_page_text_embedded embeddedWeb "https://host/page" "text/html" none
    "The Report" "/Rating/ShowRationalReportFilePdf/77" "application/pdf"
    (some [some "report"]) rfl (by decide) rfl (by decide) (by decide) rfl).2
    [some "report"] "report\n" rfl (by decide) (by decide)

end StockScreener
